import Mathlib

/-!
Verification development for the `imaginary` HTTP image-gateway repository.

Each Go function relevant to the checked claims is translated into an
executable Lean definition (a shallow embedding).  External collaborators
(libvips/bimg transforms, the network, the filesystem) are passed in as
explicit parameters, so the embedded control flow can be evaluated on
concrete inputs.  Go byte strings are modelled as `String`/`List Char`
(the inputs of every theorem below are ASCII, where Go's byte-wise string
operations agree with character-wise ones) and machine integers as `Nat`
with explicit `% 2 ^ 32` where overflow matters (SHA-256).
-/

namespace Imaginary

/-! ## Generic string helpers (Go `strings` package, byte-wise on ASCII) -/

/-- Go `strings.HasPrefix p s` (argument order: `strStartsWith s p` means
`s` starts with `p`). -/
def strStartsWith (s p : String) : Bool :=
  p.data.isPrefixOf s.data

/-- Go `strings.HasSuffix`: `strEndsWith s p` means `s` ends with `p`. -/
def strEndsWith (s p : String) : Bool :=
  p.data.isSuffixOf s.data

/-- Drop the first `n` characters of a string. -/
def strDrop (s : String) (n : Nat) : String :=
  ⟨s.data.drop n⟩

/-- Go `strings.ReplaceAll s "\n" ""`: remove every newline character. -/
def stripNewlines (s : String) : String :=
  ⟨s.data.filter (fun c => c ≠ '\n')⟩

/-! ## Go `path/filepath` (Unix rules): `Clean` and `Join`

`filepath.Clean` is modelled by splitting on `/`, then processing the
component list with the usual lexical rules: empty and `.` components are
dropped, `..` pops a previous component (dropped entirely at the root of a
rooted path, kept at the front of a relative path). -/

/-- Split a character list on `/`, producing the raw component list
(empty components included, as `strings.Split` would). -/
def splitSlash : List Char → List (List Char)
  | [] => [[]]
  | c :: cs =>
    let rest := splitSlash cs
    if c = '/' then [] :: rest
    else match rest with
      | [] => [[c]]
      | r :: rs => (c :: r) :: rs

/-- Process the components of a path left to right, with `rooted` telling
whether the path began with `/`.  `acc` holds the surviving components in
reverse order. -/
def cleanComponents (rooted : Bool) : List (List Char) → List (List Char) → List (List Char)
  | acc, [] => acc.reverse
  | acc, comp :: rest =>
    if comp = [] ∨ comp = ['.'] then
      cleanComponents rooted acc rest
    else if comp = ['.', '.'] then
      match acc with
      | [] => if rooted then cleanComponents rooted [] rest
              else cleanComponents rooted [['.', '.']] rest
      | top :: below =>
        if top = ['.', '.'] then cleanComponents rooted (comp :: acc) rest
        else cleanComponents rooted below rest
    else
      cleanComponents rooted (comp :: acc) rest

/-- Join a component list with `/` separators. -/
def joinComponents : List (List Char) → List Char
  | [] => []
  | [c] => c
  | c :: rest => c ++ '/' :: joinComponents rest

/-- Go `filepath.Clean` (Unix).  The empty path cleans to `.`; a rooted
path stays rooted; the result never ends in a separator. -/
def goPathClean (p : String) : String :=
  match p.data with
  | [] => "."
  | c :: cs =>
    let rooted := c = '/'
    let comps := cleanComponents rooted [] (splitSlash (c :: cs))
    if rooted then ⟨'/' :: joinComponents comps⟩
    else if comps = [] then "."
    else ⟨joinComponents comps⟩

/-- Go `filepath.Join a b` (Unix): empty elements are dropped, the rest
are joined with `/` and the result is cleaned. -/
def goPathJoin (a b : String) : String :=
  if a = "" ∧ b = "" then ""
  else if a = "" then goPathClean b
  else if b = "" then goPathClean a
  else goPathClean (a ++ "/" ++ b)

/-! ## Go `net/url.QueryUnescape` (ASCII fragment) -/

/-- Numeric value of a hex digit, if any (Go `unhex`: `0-9`, `a-f`,
`A-F`). -/
def hexDigit (c : Char) : Option Nat :=
  if 48 ≤ c.toNat ∧ c.toNat ≤ 57 then some (c.toNat - 48)
  else if 97 ≤ c.toNat ∧ c.toNat ≤ 102 then some (c.toNat - 87)
  else if 65 ≤ c.toNat ∧ c.toNat ≤ 70 then some (c.toNat - 55)
  else none

/-- Character-list core of `url.QueryUnescape`: `%XX` decodes to the byte
`XX` (malformed escapes are an error, yielding `none`), `+` decodes to a
space, everything else passes through. -/
def queryUnescapeCore : List Char → Option (List Char)
  | [] => some []
  | '%' :: h₁ :: h₂ :: rest =>
    match hexDigit h₁, hexDigit h₂ with
    | some a, some b => (queryUnescapeCore rest).map (Char.ofNat (a * 16 + b) :: ·)
    | _, _ => none
  | '%' :: _ :: [] => none
  | '%' :: [] => none
  | '+' :: rest => (queryUnescapeCore rest).map (' ' :: ·)
  | c :: rest => (queryUnescapeCore rest).map (c :: ·)

/-- Go `url.QueryUnescape` over a string (ASCII bytes-as-chars). -/
def queryUnescape (s : String) : Option String :=
  (queryUnescapeCore s.data).map (⟨·⟩)

/-! ## The error model (`error.go`) -/

/-- Lowercase hex digit character for `n < 16`. -/
def hexChar (n : Nat) : Char :=
  if n < 10 then Char.ofNat (48 + n) else Char.ofNat (87 + n)

/-- Escape one character the way Go `encoding/json` does with HTML escaping
on (the default used by `json.Marshal`): quote, backslash, the common
control characters, and `<` `>` `&`. -/
def jsonEscapeChar (c : Char) : List Char :=
  if c = '"' then ['\\', '"']
  else if c = '\\' then ['\\', '\\']
  else if c = '\n' then ['\\', 'n']
  else if c = '\r' then ['\\', 'r']
  else if c = '\t' then ['\\', 't']
  else if c.toNat < 32 ∨ c = '<' ∨ c = '>' ∨ c = '&' then
    '\\' :: 'u' :: '0' :: '0' :: hexChar (c.toNat / 16) :: [hexChar (c.toNat % 16)]
  else [c]

/-- JSON string literal for `s`, Go-style. -/
def jsonQuote (s : String) : String :=
  ⟨'"' :: s.data.flatMap jsonEscapeChar ++ ['"']⟩

/-- The `Error` struct of `error.go`: a message plus an HTTP status code
(`Message string; Code int`, the code always nonnegative in this program). -/
structure Error where
  message : String
  code : Nat
deriving DecidableEq, Repr

/-- `NewError` (`error.go`): strips newlines from the message. -/
def NewError (err : String) (code : Nat) : Error :=
  ⟨stripNewlines err, code⟩

/-- `Error.HTTPCode`: the stored code if it is a valid 4xx/5xx status,
otherwise 503. -/
def Error.HTTPCode (e : Error) : Nat :=
  if 400 ≤ e.code ∧ e.code ≤ 511 then e.code else 503

/-- `Error.JSON`: `json.Marshal` of the struct — `message` has `omitempty`,
`status` is the code field's JSON name. -/
def Error.JSON (e : Error) : String :=
  if e.message = "" then "\x7b\"status\":" ++ toString e.code ++ "\x7d"
  else "\x7b\"message\":" ++ jsonQuote e.message ++ ",\"status\":" ++ toString e.code ++ "\x7d"

def ErrNotFound : Error := NewError "Not found" 404
def ErrInvalidAPIKey : Error := NewError "Invalid or missing API key" 401
def ErrMethodNotAllowed : Error :=
  NewError "HTTP method not allowed. Try with a POST or GET method (-enable-url-source flag must be defined)" 405
def ErrGetMethodNotAllowed : Error :=
  NewError "GET method not allowed. Make sure remote URL source is enabled by using the flag: -enable-url-source" 405
def ErrUnsupportedMedia : Error := NewError "Unsupported media type" 406
def ErrOutputFormat : Error := NewError "Unsupported output image format" 400
def ErrEmptyBody : Error := NewError "Empty or unreadable image" 400
def ErrMissingParamFile : Error := NewError "Missing required param: file" 400
def ErrInvalidFilePath : Error := NewError "Invalid file path" 400
def ErrInvalidImageURL : Error := NewError "Invalid image URL" 400
def ErrMissingImageSource : Error :=
  NewError "Cannot process the image due to missing or invalid params" 400
def ErrNotImplemented : Error := NewError "Not implemented endpoint" 501
def ErrInvalidURLSignature : Error := NewError "Invalid URL signature" 400
def ErrURLSignatureMismatch : Error := NewError "URL signature mismatch" 403
def ErrResolutionTooBig : Error := NewError "Image resolution is too big" 422

/-! ## The filesystem source (`source_fs.go`, `GetImage`/`buildPath`)

The external filesystem is not entered: the embedding returns the *action*
`GetImage` takes before any I/O — either a rejection with a specific error,
or the request to open a concrete path.  (`read` maps open/permission
failures to `ErrInvalidFilePath`; nothing below depends on it.) -/

/-- What `FileSystemImageSource.GetImage` does before touching the disk. -/
inductive FsAction where
  /-- `getFileParam` failed to URL-unescape the `file` parameter. -/
  | unescapeError
  /-- An error value is returned without any filesystem access. -/
  | reject (e : Error)
  /-- `read`/`os.Open` is invoked on this path. -/
  | readFile (path : String)
deriving DecidableEq, Repr

/-- `FileSystemImageSource.GetImage`: unescape the `file` query parameter,
reject when empty, build `filepath.Clean(filepath.Join(MountPath, file))`
and reject with `ErrInvalidFilePath` unless the mount path is a string
prefix of the cleaned path (`strings.HasPrefix`); otherwise read the file. -/
def fsGetImage (mountPath fileParam : String) : FsAction :=
  match queryUnescape fileParam with
  | none => .unescapeError
  | some file =>
    if file = "" then .reject ErrMissingParamFile
    else
      let cleanPath := goPathClean (goPathJoin mountPath file)
      if ¬ strStartsWith cleanPath mountPath then .reject ErrInvalidFilePath
      else .readFile cleanPath

/-- Nonempty `/`-separated components of a path. -/
def pathComps (p : String) : List (List Char) :=
  (splitSlash p.data).filter (fun c => c ≠ [])

/-- Refinement-side definition, following the spec's words: the canonical
path is a *strict prefix-descendant* of the mount root — its component list
strictly extends the root's component list.  This is the property the spec
claims `GetImage` enforces; it is compared against the code's
string-prefix check. -/
def specStrictDescendant (root p : String) : Bool :=
  (pathComps root).isPrefixOf (pathComps p) && pathComps root ≠ pathComps p

/-- A file parameter "contains a path-traversal sequence" when one of its
`/`-separated components is `..`. -/
def containsTraversal (file : String) : Bool :=
  (splitSlash file.data).contains ['.', '.']

/-! ## The remote HTTP source (`source_http.go`)

The network is a parameter: the HEAD and GET responses the remote server
*would* return are given, and the embedding reports which outbound calls
are actually issued together with the result.  Transport-level failures of
`client.Do` are not modelled (no claim depends on them). -/

/-- A parsed `url.URL`, restricted to the two fields the source consults. -/
structure Origin where
  host : String
  path : String
deriving DecidableEq, Repr

/-- A remote server's response: HTTP status, declared `Content-Length`
(`-1` when absent, as in `net/http`), and the actual body bytes. -/
structure RemoteResponse where
  status : Nat
  contentLength : Int
  body : List Nat
deriving DecidableEq, Repr

/-- Outbound calls `fetchImage` can issue. -/
inductive OutboundCall where
  | head
  | get
deriving DecidableEq, Repr

/-- Errors of `HTTPImageSource.GetImage`, structured by provenance. -/
inductive HttpErr where
  /-- `url.Parse` failed: `ErrInvalidImageURL`. -/
  | invalidImageURL
  /-- `fmt.Errorf("not allowed remote URL origin: %s%s", host, path)`. -/
  | notAllowedOrigin (host path : String)
  /-- `NewError("invalid status checking image size: ...", status)`. -/
  | invalidHeadStatus (status : Nat)
  /-- `fmt.Errorf("content length %d exceeds maximum allowed %d bytes")`. -/
  | contentLengthExceeded (contentLength : Int) (max : Nat)
  /-- `NewError("error fetching remote http image: ...", status)`. -/
  | fetchStatus (status : Nat)
deriving DecidableEq, Repr

/-- One iteration of `shouldRestrictOrigin`'s loop body: does `origin`
admit the requested URL `u`?  Exact-host match with a path-prefix check,
or a `*.`-wildcard entry whose bare suffix equals the host or whose
dotted suffix (`origin.Host[1:]`) ends the host, again with the
path-prefix check. -/
def originAdmits (u origin : Origin) : Bool :=
  (origin.host = u.host && strStartsWith u.path origin.path) ||
  (strStartsWith origin.host "*." &&
    (u.host = strDrop origin.host 2 || strEndsWith u.host (strDrop origin.host 1)) &&
    strStartsWith u.path origin.path)

/-- Refinement-side definition following the spec's words: an entry
matches "by exact host equality, or, when the entry's host begins with
`*.`, by the host being equal to the bare suffix or ending in
`.<suffix>`, in each case combined with a path-prefix check". -/
def specOriginMatch (entry u : Origin) : Bool :=
  ((u.host = entry.host) ||
    (strStartsWith entry.host "*." &&
      (u.host = strDrop entry.host 2 ||
        strEndsWith u.host ("." ++ strDrop entry.host 2)))) &&
  strStartsWith u.path entry.path

/-- `HTTPImageSource.shouldRestrictOrigin`: an empty allow-list restricts
nothing; otherwise the URL is restricted unless some entry admits it
(the Go loop returns `false` at the first admitting entry). -/
def shouldRestrictOrigin (allowedOrigins : List Origin) (u : Origin) : Bool :=
  if allowedOrigins.isEmpty then false
  else ¬ allowedOrigins.any (originAdmits u)

/-- `HTTPImageSource.checkImageSize`, given the HEAD response: non-2xx
(outside 200..206) statuses are errors, and a declared content length
above `MaxAllowedSize` is rejected before the download. -/
def checkImageSize (maxAllowedSize : Nat) (head : RemoteResponse) : Option HttpErr :=
  if head.status < 200 ∨ head.status > 206 then some (.invalidHeadStatus head.status)
  else if head.contentLength > (maxAllowedSize : Int) then
    some (.contentLengthExceeded head.contentLength maxAllowedSize)
  else none

/-- The GET half of `fetchImage`: non-200 is an error; otherwise the body
is read through `io.LimitReader(res.Body, int64(MaxAllowedSize))`, i.e.
truncated to at most `MaxAllowedSize` bytes with no overflow error. -/
def fetchImageGet (maxAllowedSize : Nat) (get : RemoteResponse) : Except HttpErr (List Nat) :=
  if get.status ≠ 200 then .error (.fetchStatus get.status)
  else .ok (get.body.take maxAllowedSize)

/-- `HTTPImageSource.fetchImage`: when `MaxAllowedSize > 0` a HEAD probe
runs first and its failure prevents the GET; the result is paired with
the list of outbound calls issued. -/
def fetchImage (maxAllowedSize : Nat) (head get : RemoteResponse) :
    Except HttpErr (List Nat) × List OutboundCall :=
  if maxAllowedSize > 0 then
    match checkImageSize maxAllowedSize head with
    | some e => (.error e, [.head])
    | none => (fetchImageGet maxAllowedSize get, [.head, .get])
  else (fetchImageGet maxAllowedSize get, [.get])

/-- `HTTPImageSource.GetImage`: parse the `url` parameter (`none` models a
`url.Parse` failure), apply the origin restriction, then fetch.  An empty
call list means no outbound request was issued. -/
def httpGetImage (allowedOrigins : List Origin) (maxAllowedSize : Nat)
    (parsedURL : Option Origin) (head get : RemoteResponse) :
    Except HttpErr (List Nat) × List OutboundCall :=
  match parsedURL with
  | none => (.error .invalidImageURL, [])
  | some u =>
    if shouldRestrictOrigin allowedOrigins u then
      (.error (.notAllowedOrigin u.host u.path), [])
    else fetchImage maxAllowedSize head get

/-! ## Images, image types and options (`image.go`, `type.go`) -/

/-- The `Image` struct: response body plus MIME type. -/
structure Image where
  body : List Nat
  mime : String
deriving DecidableEq, Repr

/-- Image type codes of the external bimg library (`iota` order:
UNKNOWN, JPEG, WEBP, PNG, TIFF, GIF, PDF, SVG, MAGICK, HEIF, AVIF).
Only `= 0` versus `≠ 0` and the `GetImageMimeType` table depend on the
exact values. -/
def bimgUNKNOWN : Nat := 0
def bimgJPEG : Nat := 1
def bimgWEBP : Nat := 2
def bimgPNG : Nat := 3
def bimgTIFF : Nat := 4
def bimgGIF : Nat := 5
def bimgPDF : Nat := 6
def bimgSVG : Nat := 7

/-- `ImageType` (`type.go`): name → bimg code, lowercased, unknown names
map to `UNKNOWN = 0`. -/
def goImageType (name : String) : Nat :=
  let n := name.toLower
  if n = "jpeg" ∨ n = "jpg" then bimgJPEG
  else if n = "png" then bimgPNG
  else if n = "webp" then bimgWEBP
  else if n = "tiff" then bimgTIFF
  else if n = "gif" then bimgGIF
  else if n = "svg" then bimgSVG
  else if n = "pdf" then bimgPDF
  else bimgUNKNOWN

/-- `GetImageMimeType` (`type.go`): code → MIME type, defaulting to JPEG. -/
def GetImageMimeType (code : Nat) : String :=
  if code = bimgPNG then "image/png"
  else if code = bimgWEBP then "image/webp"
  else if code = bimgTIFF then "image/tiff"
  else if code = bimgGIF then "image/gif"
  else if code = bimgSVG then "image/svg+xml"
  else if code = bimgPDF then "application/pdf"
  else "image/jpeg"

/-- Modelled from the spec: the `ImageOptions` struct lives in `params.go`,
which is absent from `src/`; the embedded handlers consult only its output
`Type` field ("query-derived operation parameters"), so only that field is
carried. -/
structure ImageOptions where
  type : String
deriving DecidableEq, Repr

/-! ## The image handlers

Two handler bodies exist in the repository: `createImageHandler`
(`middleware.go`, the one `ImageMiddleware` installs on every image
endpoint) and `imageHandler` (`controllers.go`, reached from the unused
`imageController`).  Both are embedded; each records whether the
transform capability was invoked.  The source bytes, the parsed
parameters, the bimg metadata and the transform itself are external
inputs and are passed as parameters. -/

/-- What an image handler writes. -/
inductive HandlerReply where
  /-- `ErrorReply` is called with this error. -/
  | reply (e : Error)
  /-- The transformed image is served. -/
  | serve (img : Image)
deriving DecidableEq, Repr

/-- A handler's outcome plus whether the transform operation ran. -/
structure HandlerResult where
  outcome : HandlerReply
  transformInvoked : Bool
deriving DecidableEq, Repr

/-- `createImageHandler` (`middleware.go` 75–112): fetch bytes from the
source, reject empty bodies, parse parameters, then invoke the operation —
with no media-type, resolution or output-format check of any kind.
`errString` renders a source error the way `err.Error()` would. -/
def createImageHandler {ε : Type} (errString : ε → String)
    (sourceResult : Except ε (List Nat))
    (paramsResult : Except String ImageOptions)
    (operation : List Nat → ImageOptions → Except String Image) : HandlerResult :=
  match sourceResult with
  | .error e => ⟨.reply (NewError ("Error getting image: " ++ errString e) 400), false⟩
  | .ok buf =>
    if buf.length = 0 then ⟨.reply ErrEmptyBody, false⟩
    else
      match paramsResult with
      | .error e => ⟨.reply (NewError ("Error parsing parameters: " ++ e) 400), false⟩
      | .ok opts =>
        match operation buf opts with
        | .error e => ⟨.reply (NewError ("Error processing image: " ++ e) 400), true⟩
        | .ok image => ⟨.serve image, true⟩

/-- A GET-with-`url` image request end to end on the live path:
`createImageHandler` over `getImageFromURL`, whose source resolves to
`HTTPImageSource.GetImage` (the request is GET with a non-empty `url` and
an empty `file` parameter, so only the HTTP source matches). -/
def handleURLFetchRequest (errString : HttpErr → String)
    (allowedOrigins : List Origin) (maxAllowedSize : Nat)
    (parsedURL : Option Origin) (head get : RemoteResponse)
    (paramsResult : Except String ImageOptions)
    (operation : List Nat → ImageOptions → Except String Image) : HandlerResult :=
  createImageHandler errString
    (httpGetImage allowedOrigins maxAllowedSize parsedURL head get).1
    paramsResult operation

/-- `imageHandler` (`controllers.go` 79–122): media-type check, parameter
parse, `auto`/output-format negotiation, `bimg.Size`, the megapixel
ceiling check, then the operation.  `mimeSupported` is
`IsImageMimeTypeSupported(detectMimeType(buf))`, `acceptType` is
`determineAcceptMimeType(Accept)`, `sizeResult` is `bimg.Size(buf)` and
`maxAllowedPixels` the `MaxAllowedPixels` option (a float64, embedded as
an exact rational). -/
def imageHandler (mimeSupported : Bool) (paramsResult : Except String ImageOptions)
    (acceptType : String) (sizeResult : Except String (Nat × Nat))
    (maxAllowedPixels : Rat) (buf : List Nat)
    (operation : List Nat → ImageOptions → Except String Image) : HandlerResult :=
  if ¬ mimeSupported then ⟨.reply ErrUnsupportedMedia, false⟩
  else
    match paramsResult with
    | .error e => ⟨.reply (NewError ("Error while processing parameters: " ++ e) 400), false⟩
    | .ok opts =>
      if opts.type ≠ "auto" ∧ opts.type ≠ "" ∧ goImageType opts.type = 0 then
        ⟨.reply ErrOutputFormat, false⟩
      else
        let opts' : ImageOptions := if opts.type = "auto" then ⟨acceptType⟩ else opts
        match sizeResult with
        | .error e => ⟨.reply (NewError ("Error processing image: " ++ e) 400), false⟩
        | .ok (w, h) =>
          if ((w : Rat) * (h : Rat) / 1000000 > maxAllowedPixels) then
            ⟨.reply ErrResolutionTooBig, false⟩
          else
            match operation buf opts' with
            | .error e => ⟨.reply (NewError ("Error processing image: " ++ e) 400), true⟩
            | .ok image => ⟨.serve image, true⟩

/-! ## The middleware chain (`middleware.go`, `server.go`) -/

/-- The HTTP methods the chain distinguishes. -/
inductive GoMethod where
  | get
  | post
  | put
  | other
deriving DecidableEq, Repr

/-- `validateRequest` admits only GET and POST. -/
def validateRequestAdmits (m : GoMethod) : Bool :=
  m = .get || m = .post

/-- `BodyImageSource.Matches` (`source_body.go`): POST or PUT. -/
def bodySourceMatches (m : GoMethod) : Bool :=
  m = .post || m = .put

/-- `HTTPImageSource.Matches`: GET with a non-empty `url` parameter. -/
def httpSourceMatches (m : GoMethod) (urlParam : String) : Bool :=
  m = .get && urlParam ≠ ""

/-- `FileSystemImageSource.Matches`: GET with a non-empty `file` parameter. -/
def fsSourceMatches (m : GoMethod) (fileParam : String) : Bool :=
  m = .get && fileParam ≠ ""

/-- `isPublicPath` (`middleware.go`). -/
def isPublicPath (p : String) : Bool :=
  p = "/" || p = "/health" || p = "/form"

/-- `Endpoints.IsValid` (`server.go`): the deny-list rejects a request
whose last `/`-separated path segment is listed. -/
def endpointsIsValid (deny : List String) (path : String) : Bool :=
  let parts := (splitSlash path.data).map (fun c => (⟨c⟩ : String))
  ¬ deny.contains (parts.getLastD "")

/-- Outcome of `checkURLSignature`, computed by the signature model below
and consumed by the chain. -/
inductive SigResult where
  /-- base64 decoding of `sign` failed: `ErrInvalidURLSignature`. -/
  | invalidSignature
  /-- decoded bytes differ from the digest: `ErrURLSignatureMismatch`. -/
  | mismatch
  /-- the inner handler runs. -/
  | next
deriving DecidableEq, Repr

/-- Configuration fields of `ServerOptions` the image-endpoint chain
consults for admission. -/
structure ChainConfig where
  enableURLSignature : Bool
  mount : String
  enableURLSource : Bool
  apiKey : String
  concurrency : Nat
  endpoints : List String
deriving Repr

/-- Where a request stops in the chain. -/
inductive ChainOutcome where
  /-- some wrapper called `ErrorReply` with this error. -/
  | reply (e : Error)
  /-- the throttle middleware rejected the request (429, written by the
  throttled library itself). -/
  | rateLimited
  /-- the terminal image handler runs. -/
  | handler
deriving DecidableEq, Repr

/-- The decorator chain `ImageMiddleware` builds around an image handler,
in request traversal order: `checkURLSignature` (when enabled) →
`validateImageRequest` → `validateRequest` → cache/default headers (never
reject) → `authorize` (when an API key is set) → CORS (pass-through) →
throttle (when concurrency > 0) → `validateEndpoints` (when the deny-list
is nonempty) → handler.  `sigResult`, `apiKeySupplied` and `rateLimited`
are the request-dependent inputs of the respective wrappers. -/
def imageChain (cfg : ChainConfig) (m : GoMethod) (path : String)
    (sigResult : SigResult) (apiKeySupplied : String) (rateLimited : Bool) : ChainOutcome :=
  if cfg.enableURLSignature ∧ sigResult = .invalidSignature then .reply ErrInvalidURLSignature
  else if cfg.enableURLSignature ∧ sigResult = .mismatch then .reply ErrURLSignatureMismatch
  else if m = .get ∧ ¬ isPublicPath path ∧ cfg.mount = "" ∧ ¬ cfg.enableURLSource then
    .reply ErrGetMethodNotAllowed
  else if ¬ validateRequestAdmits m then .reply ErrMethodNotAllowed
  else if cfg.apiKey ≠ "" ∧ apiKeySupplied ≠ cfg.apiKey then .reply ErrInvalidAPIKey
  else if cfg.concurrency > 0 ∧ rateLimited then .rateLimited
  else if ¬ cfg.endpoints.isEmpty ∧ ¬ endpointsIsValid cfg.endpoints path then
    .reply ErrNotImplemented
  else .handler

/-! ## The operation pipeline (`image.go`, `Pipeline`)

`PipelineOperation` is declared in the absent `params.go`; `Pipeline`
consults its `Name` and `IgnoreFailure` fields and hands the whole struct
to `buildParamsFromOperation` and to the looked-up transform.  Parameter
building and the transforms are external inputs (`build`, `run`); the
embedding additionally records the 1-based positions at which a transform
was invoked, to talk about execution order. -/

/-- A pipeline step as `Pipeline` consults it (`Name`, `IgnoreFailure`;
the JSON `params` travel inside `build`/`run`). -/
structure PipelineOperation where
  name : String
  ignoreFailure : Bool
deriving DecidableEq, Repr

/-- The keys of `OperationsMap` (`image.go`). -/
def OperationsMapNames : List String :=
  ["crop", "resize", "enlarge", "extract", "rotate", "autorotate", "flip", "flop",
   "thumbnail", "zoom", "convert", "watermark", "watermarkImage", "blur", "smartcrop", "fit"]

/-- Membership in `OperationsMap`. -/
def isKnownOperation (name : String) : Bool :=
  OperationsMapNames.contains name

/-- The loop of `Pipeline` over the remaining steps.  `i` is the 0-based
index of the first remaining step, `trace` the 1-based positions whose
transform has run so far.  Per step: unknown names abort with
`Unsupported operation`; a `buildParamsFromOperation` failure aborts with
the position-annotated error; a transform failure aborts with the *raw*
error unless `IgnoreFailure` is set, in which case the previous image is
kept and the loop continues. -/
def pipelineLoop (build : PipelineOperation → Except String Unit)
    (run : PipelineOperation → List Nat → Except String Image) :
    List PipelineOperation → Nat → Image → List Nat →
    Except String Image × List Nat
  | [], _, image, trace => (.ok image, trace)
  | op :: rest, i, image, trace =>
    if ¬ isKnownOperation op.name then
      (.error ("Unsupported operation: " ++ op.name), trace)
    else
      match build op with
      | .error e =>
        (.error ("pipeline operation " ++ toString (i + 1) ++ " failed: " ++ e), trace)
      | .ok _ =>
        match run op image.body with
        | .error e =>
          if ¬ op.ignoreFailure then (.error e, trace ++ [i + 1])
          else pipelineLoop build run rest (i + 1) image (trace ++ [i + 1])
        | .ok result => pipelineLoop build run rest (i + 1) result (trace ++ [i + 1])

/-- `Pipeline` (`image.go` 439–469): bounds checks on the step count, then
the loop, starting from `Image{Body: buf}`. -/
def Pipeline (build : PipelineOperation → Except String Unit)
    (run : PipelineOperation → List Nat → Except String Image)
    (operations : List PipelineOperation) (buf : List Nat) :
    Except String Image × List Nat :=
  if operations.length = 0 then (.error "Missing pipeline operations", [])
  else if operations.length > 10 then
    (.error "Maximum pipeline operations (10) exceeded", [])
  else pipelineLoop build run operations 0 ⟨buf, ""⟩ []

/-! ## Error replies and the placeholder path (`error.go`) -/

/-- Response body: JSON text or image bytes. -/
inductive RespBody where
  | json (s : String)
  | image (bs : List Nat)
deriving DecidableEq, Repr

/-- The observable pieces of an HTTP response the replier writes. -/
structure Response where
  status : Nat
  contentType : String
  errorHeader : Option String
  body : RespBody
deriving DecidableEq, Repr

/-- The `ServerOptions` fields `ErrorReply` consults. -/
structure PlaceholderOptions where
  enablePlaceholder : Bool
  placeholder : String
  placeholderStatus : Nat
deriving Repr

/-- `sendError` (`error.go`): a raw JSON error body
`{"error":"...", "status":N}` with the given status. -/
def sendError (code : Nat) (msg : String) : Response :=
  ⟨code, "application/json", none,
    .json ("\x7b\"error\":\"" ++ msg ++ "\", \"status\":" ++ toString code ++ "\x7d")⟩

/-- `replyWithPlaceholder` (`error.go` 69–107): parse `width` and `height`
from the query (`parseInt` lives in the absent `params.go`; its outcomes
are inputs here), resize the configured placeholder image through bimg
(`resize`, an external input taking the parsed width/height), then serve
the image with the JSON-encoded original error in the `Error` header and
either the fixed placeholder status or the error's own status.
`determinedType` is `bimg.DetermineImageType` of the resized image. -/
def replyWithPlaceholder (o : PlaceholderOptions)
    (parseWidth parseHeight : Except String Nat)
    (resize : Nat → Nat → Except String (List Nat))
    (determinedType : Nat) (errCaller : Error) : Response :=
  match parseWidth with
  | .error e => sendError 400 e
  | .ok width =>
    match parseHeight with
    | .error e => sendError 400 e
    | .ok height =>
      match resize width height with
      | .error e => sendError 400 e
      | .ok image =>
        { status := if o.placeholderStatus ≠ 0 then o.placeholderStatus
                    else errCaller.HTTPCode
          contentType := GetImageMimeType determinedType
          errorHeader := some errCaller.JSON
          body := .image image }

/-- `ErrorReply` (`error.go` 58–67): the placeholder path when a
placeholder image or placeholder mode is configured, otherwise the plain
JSON error body with the error's status. -/
def ErrorReply (o : PlaceholderOptions) (parseWidth parseHeight : Except String Nat)
    (resize : Nat → Nat → Except String (List Nat))
    (determinedType : Nat) (err : Error) : Response :=
  if o.enablePlaceholder || o.placeholder ≠ "" then
    replyWithPlaceholder o parseWidth parseHeight resize determinedType err
  else ⟨err.HTTPCode, "application/json", none, .json err.JSON⟩

/-! ## SHA-256 and HMAC (`crypto/sha256`, `crypto/hmac`)

`checkURLSignature` computes `hmac.New(sha256.New, key)` over the
canonical string.  FIPS 180-4 SHA-256 is implemented over byte lists
(`Nat` values `< 256`), with 32-bit words as `Nat` reduced `% 2^32`. -/

/-- ASCII bytes of a string (every theorem input below is ASCII, where
Go's UTF-8 bytes coincide with the character codes). -/
def strBytes (s : String) : List Nat :=
  s.data.map Char.toNat

/-- Truncate to a 32-bit word. -/
def w32 (x : Nat) : Nat := x % 4294967296

/-- Right-rotation of a 32-bit word. -/
def rotr32 (n x : Nat) : Nat :=
  w32 ((x >>> n) ||| (x <<< (32 - n)))

/-- Bitwise complement of a 32-bit word. -/
def not32 (x : Nat) : Nat := 4294967295 ^^^ x

def shaCh (x y z : Nat) : Nat := (x &&& y) ^^^ (not32 x &&& z)
def shaMaj (x y z : Nat) : Nat := (x &&& y) ^^^ (x &&& z) ^^^ (y &&& z)
def shaBigSigma0 (x : Nat) : Nat := rotr32 2 x ^^^ rotr32 13 x ^^^ rotr32 22 x
def shaBigSigma1 (x : Nat) : Nat := rotr32 6 x ^^^ rotr32 11 x ^^^ rotr32 25 x
def shaSmallSigma0 (x : Nat) : Nat := rotr32 7 x ^^^ rotr32 18 x ^^^ (x >>> 3)
def shaSmallSigma1 (x : Nat) : Nat := rotr32 17 x ^^^ rotr32 19 x ^^^ (x >>> 10)

/-- The SHA-256 round constants (FIPS 180-4 §4.2.2, the fractional parts
of the cube roots of the first 64 primes, written in decimal). -/
def k256 : List Nat := [
  1116352408, 1899447441, 3049323471, 3921009573, 961987163,
  1508970993, 2453635748, 2870763221, 3624381080, 310598401,
  607225278, 1426881987, 1925078388, 2162078206, 2614888103,
  3248222580, 3835390401, 4022224774, 264347078, 604807628,
  770255983, 1249150122, 1555081692, 1996064986, 2554220882,
  2821834349, 2952996808, 3210313671, 3336571891, 3584528711,
  113926993, 338241895, 666307205, 773529912, 1294757372,
  1396182291, 1695183700, 1986661051, 2177026350, 2456956037,
  2730485921, 2820302411, 3259730800, 3345764771, 3516065817,
  3600352804, 4094571909, 275423344, 430227734, 506948616,
  659060556, 883997877, 958139571, 1322822218, 1537002063,
  1747873779, 1955562222, 2024104815, 2227730452, 2361852424,
  2428436474, 2756734187, 3204031479, 3329325298]

/-- Big-endian bytes of `n`, `count` bytes wide. -/
def beBytes : Nat → Nat → List Nat
  | 0, _ => []
  | k + 1, n => beBytes k (n / 256) ++ [n % 256]

/-- Big-endian 32-bit words from a byte list (whole 4-byte groups). -/
def bytesToWords : List Nat → List Nat
  | b0 :: b1 :: b2 :: b3 :: rest =>
    (b0 * 16777216 + b1 * 65536 + b2 * 256 + b3) :: bytesToWords rest
  | _ => []

/-- SHA-256 padding: `0x80`, zeros to 56 mod 64, 8-byte big-endian bit
length. -/
def shaPad (msg : List Nat) : List Nat :=
  let rem := (msg.length + 9) % 64
  let zeros := if rem = 0 then 0 else 64 - rem
  msg ++ 0x80 :: List.replicate zeros 0 ++ beBytes 8 (msg.length * 8)

/-- Split a byte list into 64-byte blocks (structurally: `cur` carries the
current block in reverse, `n` its length). -/
def splitBlocksAux (cur : List Nat) (n : Nat) : List Nat → List (List Nat)
  | [] => if cur = [] then [] else [cur.reverse]
  | b :: bs =>
    if n = 63 then (b :: cur).reverse :: splitBlocksAux [] 0 bs
    else splitBlocksAux (b :: cur) (n + 1) bs

/-- Split a byte list into 64-byte blocks. -/
def splitBlocks (l : List Nat) : List (List Nat) :=
  splitBlocksAux [] 0 l

/-- Extend the 16 message-schedule words to 64 (`k` remaining). -/
def extendSchedule (ws : List Nat) : Nat → List Nat
  | 0 => ws
  | k + 1 =>
    let n := ws.length
    let w := w32 (shaSmallSigma1 (ws.getD (n - 2) 0) + ws.getD (n - 7) 0 +
      shaSmallSigma0 (ws.getD (n - 15) 0) + ws.getD (n - 16) 0)
    extendSchedule (ws ++ [w]) k

/-- The eight SHA-256 working variables. -/
structure Hash8 where
  a : Nat
  b : Nat
  c : Nat
  d : Nat
  e : Nat
  f : Nat
  g : Nat
  h : Nat
deriving DecidableEq, Repr

/-- The SHA-256 initial hash value (fractional parts of the square roots
of the first 8 primes, in decimal). -/
def shaInit : Hash8 :=
  ⟨1779033703, 3144134277, 1013904242, 2773480762,
   1359893119, 2600822924, 528734635, 1541459225⟩

/-- One compression round with constant `k` and schedule word `w`. -/
def shaRound (st : Hash8) (kw : Nat × Nat) : Hash8 :=
  let t1 := w32 (st.h + shaBigSigma1 st.e + shaCh st.e st.f st.g + kw.1 + kw.2)
  let t2 := w32 (shaBigSigma0 st.a + shaMaj st.a st.b st.c)
  ⟨w32 (t1 + t2), st.a, st.b, st.c, w32 (st.d + t1), st.e, st.f, st.g⟩

/-- Compress one 64-byte block into the running hash. -/
def shaCompress (hs : Hash8) (block : List Nat) : Hash8 :=
  let ws := extendSchedule (bytesToWords block) 48
  let st := (k256.zip ws).foldl shaRound hs
  ⟨w32 (hs.a + st.a), w32 (hs.b + st.b), w32 (hs.c + st.c), w32 (hs.d + st.d),
   w32 (hs.e + st.e), w32 (hs.f + st.f), w32 (hs.g + st.g), w32 (hs.h + st.h)⟩

/-- SHA-256 of a byte list, as 32 bytes. -/
def sha256 (msg : List Nat) : List Nat :=
  let hs := (splitBlocks (shaPad msg)).foldl shaCompress shaInit
  beBytes 4 hs.a ++ beBytes 4 hs.b ++ beBytes 4 hs.c ++ beBytes 4 hs.d ++
  beBytes 4 hs.e ++ beBytes 4 hs.f ++ beBytes 4 hs.g ++ beBytes 4 hs.h

/-- HMAC-SHA-256 (`crypto/hmac` with a 64-byte block size). -/
def hmacSha256 (key msg : List Nat) : List Nat :=
  let k0 := if key.length > 64 then sha256 key else key
  let kpad := k0 ++ List.replicate (64 - k0.length) 0
  let ipad := kpad.map (fun b => b ^^^ 0x36)
  let opad := kpad.map (fun b => b ^^^ 0x5c)
  sha256 (opad ++ sha256 (ipad ++ msg))

/-! ## Base64, URL-safe alphabet, no padding (`encoding/base64.RawURLEncoding`)

Go's decoder (without `.Strict()`) ignores `\r`/`\n` and *discards
non-zero trailing padding bits* — the final partial quantum contributes
only its whole bytes.  That leniency is modelled exactly, since one claim
turns on it. -/

/-- The URL-safe base64 alphabet. -/
def b64Alphabet : List Char :=
  "ABCDEFGHIJKLMNOPQRSTUVWXYZabcdefghijklmnopqrstuvwxyz0123456789-_".data

/-- Character for a 6-bit value. -/
def b64Char (n : Nat) : Char := b64Alphabet.getD n 'A'

/-- Alphabet index of a character, `none` when invalid. -/
def b64CharIndex (c : Char) : Option Nat :=
  b64Alphabet.findIdx? (· = c)

/-- Unpadded base64 encoding, three bytes to four characters with the
standard partial tails. -/
def b64EncodeChars : List Nat → List Char
  | [] => []
  | [b0] => b64Char (b0 / 4) :: [b64Char (b0 % 4 * 16)]
  | [b0, b1] => b64Char (b0 / 4) :: b64Char (b0 % 4 * 16 + b1 / 16) :: [b64Char (b1 % 16 * 4)]
  | b0 :: b1 :: b2 :: rest =>
    b64Char (b0 / 4) :: b64Char (b0 % 4 * 16 + b1 / 16) ::
    b64Char (b1 % 16 * 4 + b2 / 64) :: b64Char (b2 % 64) :: b64EncodeChars rest

/-- `base64.RawURLEncoding.EncodeToString`. -/
def b64RawURLEncode (bs : List Nat) : String :=
  ⟨b64EncodeChars bs⟩

/-- The 6-bit values `b64EncodeChars` encodes, used to state its
round-trip with the decoder. -/
def b64EncodeIdx : List Nat → List Nat
  | [] => []
  | [b0] => [b0 / 4, b0 % 4 * 16]
  | [b0, b1] => [b0 / 4, b0 % 4 * 16 + b1 / 16, b1 % 16 * 4]
  | b0 :: b1 :: b2 :: rest =>
    b0 / 4 :: (b0 % 4 * 16 + b1 / 16) :: (b1 % 16 * 4 + b2 / 64) :: b2 % 64 ::
    b64EncodeIdx rest

/-- Reassemble bytes from 6-bit values, four at a time; a trailing pair or
triple yields its whole bytes with the leftover bits dropped (the
non-strict Go behaviour).  A trailing single value cannot reach this
function (rejected by the length check). -/
def b64DecodeQuantum : List Nat → List Nat
  | i0 :: i1 :: i2 :: i3 :: rest =>
    (i0 * 4 + i1 / 16) :: (i1 % 16 * 16 + i2 / 4) :: (i2 % 4 * 64 + i3) ::
    b64DecodeQuantum rest
  | [i0, i1] => [i0 * 4 + i1 / 16]
  | [i0, i1, i2] => [i0 * 4 + i1 / 16, i1 % 16 * 16 + i2 / 4]
  | _ => []

/-- `base64.RawURLEncoding.DecodeString`: strip `\r`/`\n`, reject invalid
characters and a trailing length of 1 mod 4, then decode leniently. -/
def b64RawURLDecode (s : String) : Option (List Nat) :=
  let cs := s.data.filter (fun c => c ≠ '\r' ∧ c ≠ '\n')
  match cs.mapM b64CharIndex with
  | none => none
  | some is => if is.length % 4 = 1 then none else some (b64DecodeQuantum is)

/-! ## `url.Values` and `checkURLSignature` (`middleware.go` 204–228) -/

/-- Uppercase hex digit character for `n < 16`. -/
def hexCharUpper (n : Nat) : Char :=
  if n < 10 then Char.ofNat (48 + n) else Char.ofNat (55 + n)

/-- Is `c` left unescaped by `url.QueryEscape`
(alphanumerics and `-` `_` `.` `~`)? -/
def queryUnreserved (c : Char) : Bool :=
  (97 ≤ c.toNat && c.toNat ≤ 122) || (65 ≤ c.toNat && c.toNat ≤ 90) ||
  (48 ≤ c.toNat && c.toNat ≤ 57) || c = '-' || c = '_' || c = '.' || c = '~'

/-- `url.QueryEscape` of one ASCII character: unreserved pass, space
becomes `+`, everything else `%XX` with uppercase hex. -/
def queryEscapeChar (c : Char) : List Char :=
  if queryUnreserved c then [c]
  else if c = ' ' then ['+']
  else ['%', hexCharUpper (c.toNat / 16), hexCharUpper (c.toNat % 16)]

/-- `url.QueryEscape` (ASCII). -/
def queryEscape (s : String) : String :=
  ⟨s.data.flatMap queryEscapeChar⟩

/-- `url.Values.Get`: first value of the key, `""` when absent or empty. -/
def valuesGet (q : List (String × List String)) (key : String) : String :=
  match q.find? (fun p => p.1 = key) with
  | some (_, v :: _) => v
  | _ => ""

/-- `url.Values.Del`. -/
def valuesDel (q : List (String × List String)) (key : String) :
    List (String × List String) :=
  q.filter (fun p => p.1 ≠ key)

/-- Insert a pair into a key-sorted list (byte-wise string order). -/
def insertByKey (p : String × List String) :
    List (String × List String) → List (String × List String)
  | [] => [p]
  | q :: rest => if p.1 < q.1 then p :: q :: rest else q :: insertByKey p rest

/-- Sort by key (insertion sort; `url.Values.Encode` sorts its keys). -/
def sortByKey (l : List (String × List String)) : List (String × List String) :=
  l.foldr insertByKey []

/-- `url.Values.Encode`: keys sorted, each value in slice order as
`escape(k)=escape(v)`, joined with `&`. -/
def valuesEncode (q : List (String × List String)) : String :=
  String.intercalate "&"
    ((sortByKey q).flatMap (fun p => p.2.map (fun v => queryEscape p.1 ++ "=" ++ queryEscape v)))

/-- `checkURLSignature` (`middleware.go` 204–228): read and delete the
`sign` parameter, HMAC the path concatenated with the re-encoded
remaining query under the configured key, base64-decode the supplied
signature (failure: `ErrInvalidURLSignature`), and compare in constant
time (`hmac.Equal`; mismatch: `ErrURLSignatureMismatch`). -/
def checkURLSignature (urlSignatureKey : String) (path : String)
    (query : List (String × List String)) : SigResult :=
  let sign := valuesGet query "sign"
  let q := valuesDel query "sign"
  let expectedSign := hmacSha256 (strBytes urlSignatureKey)
    (strBytes (path ++ valuesEncode q))
  match b64RawURLDecode sign with
  | none => .invalidSignature
  | some urlSign => if urlSign = expectedSign then .next else .mismatch

/-! # Theorems -/

/-! ## Path lemmas for the filesystem source -/

theorem joinComponents_cons (c : List Char) {l : List (List Char)} (h : l ≠ []) :
    joinComponents (c :: l) = c ++ '/' :: joinComponents l := by
  cases l with
  | nil => exact absurd rfl h
  | cons d ds => rfl

theorem joinComponents_append {r s : List (List Char)} (hr : r ≠ []) (hs : s ≠ []) :
    joinComponents (r ++ s) = joinComponents r ++ '/' :: joinComponents s := by
  induction r with
  | nil => exact absurd rfl hr
  | cons c r' ih =>
    cases r' with
    | nil =>
      cases s with
      | nil => exact absurd rfl hs
      | cons d ds => simp [joinComponents_cons, joinComponents]
    | cons c₂ r'' =>
      have h₁ : joinComponents (c :: (c₂ :: r'' ++ s)) =
          c ++ '/' :: joinComponents (c₂ :: r'' ++ s) :=
        joinComponents_cons c (by simp)
      have h₂ := ih (by simp)
      calc joinComponents ((c :: c₂ :: r'') ++ s)
          = c ++ '/' :: joinComponents (c₂ :: r'' ++ s) := h₁
        _ = c ++ '/' :: (joinComponents (c₂ :: r'') ++ '/' :: joinComponents s) := by rw [h₂]
        _ = joinComponents (c :: c₂ :: r'') ++ '/' :: joinComponents s := by
            rw [joinComponents_cons c (l := c₂ :: r'') (by simp)]; simp

theorem splitSlash_cons (a : Char) (cs : List Char) :
    splitSlash (a :: cs) = if a = '/' then [] :: splitSlash cs
      else match splitSlash cs with
        | [] => [[a]]
        | r :: rs => (a :: r) :: rs := rfl

theorem splitSlash_no_slash {c : List Char} (hne : c ≠ []) (h : ('/' : Char) ∉ c) :
    splitSlash c = [c] := by
  induction c with
  | nil => exact absurd rfl hne
  | cons a rest ih =>
    have ha : ¬ (a = '/') := fun e => h (e ▸ List.mem_cons_self a rest)
    cases rest with
    | nil => simp [splitSlash_cons, ha, splitSlash]
    | cons b bs =>
      have hrest := ih (by simp) (fun hm => h (List.mem_cons_of_mem a hm))
      rw [splitSlash_cons, if_neg ha, hrest]

theorem splitSlash_append (c t : List Char) (h : ('/' : Char) ∉ c) :
    splitSlash (c ++ '/' :: t) = c :: splitSlash t := by
  induction c with
  | nil => simp [splitSlash_cons]
  | cons a rest ih =>
    have ha : ¬ (a = '/') := fun e => h (e ▸ List.mem_cons_self a rest)
    have hrest := ih (fun hm => h (List.mem_cons_of_mem a hm))
    have : (a :: rest) ++ '/' :: t = a :: (rest ++ '/' :: t) := rfl
    rw [this, splitSlash_cons, if_neg ha, hrest]

theorem splitSlash_join_filter (cs : List (List Char))
    (h : ∀ c ∈ cs, c ≠ [] ∧ ('/' : Char) ∉ c) :
    (splitSlash (joinComponents cs)).filter (fun c => c ≠ []) = cs := by
  induction cs with
  | nil => simp [joinComponents, splitSlash]
  | cons c rest ih =>
    cases rest with
    | nil =>
      have hc := h c (by simp)
      have : splitSlash (joinComponents [c]) = [c] := by
        simpa [joinComponents] using splitSlash_no_slash hc.1 hc.2
      simp [this, hc.1]
    | cons d ds =>
      have hc := h c (by simp)
      have hjc : joinComponents (c :: d :: ds) = c ++ '/' :: joinComponents (d :: ds) :=
        joinComponents_cons c (by simp)
      have hsplit := splitSlash_append c (joinComponents (d :: ds)) hc.2
      have hrest := ih (fun x hx => h x (List.mem_cons_of_mem c hx))
      simp only [ne_eq, decide_not] at hrest ⊢
      simp [hjc, hsplit, hc.1, hrest]

theorem pathComps_canonical (cs : List (List Char))
    (h : ∀ c ∈ cs, c ≠ [] ∧ ('/' : Char) ∉ c) :
    pathComps ⟨'/' :: joinComponents cs⟩ = cs := by
  show ((splitSlash ('/' :: joinComponents cs)).filter (fun c => c ≠ [])) = cs
  have : splitSlash ('/' :: joinComponents cs) = [] :: splitSlash (joinComponents cs) := by
    simp [splitSlash]
  rw [this]
  simpa using splitSlash_join_filter cs h

theorem strStartsWith_join (r s : List (List Char)) (hs : s ≠ []) :
    strStartsWith ⟨'/' :: joinComponents (r ++ s)⟩ ⟨'/' :: joinComponents r⟩ = true := by
  show (('/' :: joinComponents r).isPrefixOf ('/' :: joinComponents (r ++ s))) = true
  rw [List.isPrefixOf_iff_prefix]
  cases r with
  | nil =>
    exact ⟨joinComponents s, by simp [joinComponents]⟩
  | cons c r' =>
    rw [joinComponents_append (by simp) hs]
    exact ⟨'/' :: joinComponents s, by simp⟩

/-! ## C1: the filesystem source's path-traversal guard -/

/-- C1, counterexample: with mount root `/mnt`, the file parameter
`../mntx/secret` contains a traversal sequence and its cleaned join
`/mntx/secret` is *not* a strict prefix-descendant of the mount root, yet
`GetImage` proceeds to read that path — the code's `strings.HasPrefix`
check accepts any sibling path that shares the root as a string prefix,
so the claim's rejection property is false. -/
theorem fsGetImage_reads_outside_mount_cx :
    fsGetImage "/mnt" "../mntx/secret" = .readFile "/mntx/secret" ∧
    containsTraversal "../mntx/secret" = true ∧
    specStrictDescendant "/mnt" "/mntx/secret" = false := by
  decide

/-- C1 (amended): `GetImage`'s guard is the *string-prefix* check on the
cleaned join, not the strict-descendant property: (1) any path it reads
is the cleaned join and has the mount path as a string prefix, and
whenever the mount path is not a string prefix of the cleaned join the
request is rejected with `ErrInvalidFilePath` before any filesystem read;
(2) the check is complete for the spec's property — every cleaned join
that strictly extends a canonical rooted mount path componentwise (a
strict prefix-descendant) passes the string-prefix check — but, by the
counterexample, not sound for it. -/
theorem fsGetImage_guard_characterization :
    (∀ mount fileParam file, queryUnescape fileParam = some file → file ≠ "" →
      (∀ p, fsGetImage mount fileParam = .readFile p →
        p = goPathClean (goPathJoin mount file) ∧ strStartsWith p mount = true) ∧
      (strStartsWith (goPathClean (goPathJoin mount file)) mount = false →
        fsGetImage mount fileParam = .reject ErrInvalidFilePath)) ∧
    (∀ r s : List (List Char), (∀ c ∈ r ++ s, c ≠ [] ∧ ('/' : Char) ∉ c) → s ≠ [] →
      strStartsWith ⟨'/' :: joinComponents (r ++ s)⟩ ⟨'/' :: joinComponents r⟩ = true ∧
      specStrictDescendant ⟨'/' :: joinComponents r⟩ ⟨'/' :: joinComponents (r ++ s)⟩ = true) := by
  constructor
  · intro mount fileParam file hu hne
    constructor
    · intro p hp
      simp only [fsGetImage, hu, if_neg hne] at hp
      by_cases hpre : strStartsWith (goPathClean (goPathJoin mount file)) mount = true
      · rw [if_neg (by simp [hpre])] at hp
        cases hp
        exact ⟨rfl, hpre⟩
      · rw [if_pos (by simpa using hpre)] at hp
        cases hp
    · intro hfalse
      simp only [fsGetImage, hu, if_neg hne]
      rw [if_pos (by simp [hfalse])]
  · intro r s hcs hs
    refine ⟨strStartsWith_join r s hs, ?_⟩
    have hr : ∀ c ∈ r, c ≠ [] ∧ ('/' : Char) ∉ c :=
      fun c hc => hcs c (List.mem_append_left s hc)
    simp only [specStrictDescendant, pathComps_canonical r hr, pathComps_canonical (r ++ s) hcs]
    have hne : r ≠ r ++ s := by
      intro h
      have hlen := congrArg List.length h
      simp only [List.length_append] at hlen
      exact hs (List.eq_nil_of_length_eq_zero (by omega))
    have hpre : (r.isPrefixOf (r ++ s)) = true := List.isPrefixOf_iff_prefix.mpr ⟨s, rfl⟩
    simp [hne, hpre]

/-- C1 witness: a traversal input whose cleaned join leaves the mount's
string prefix is rejected, by the amended theorem at a concrete input. -/
theorem fsGetImage_guard_characterization_witness :
    fsGetImage "/mnt" "../etc/passwd" = .reject ErrInvalidFilePath :=
  (fsGetImage_guard_characterization.1 "/mnt" "../etc/passwd" "../etc/passwd"
    (by decide) (by decide)).2 (by decide)

/-! ## C2: the remote-origin allow-list -/

theorem strDrop_one_of_star {s : String} (h : strStartsWith s "*." = true) :
    strDrop s 1 = "." ++ strDrop s 2 := by
  have hp : ('*' :: '.' :: []) <+: s.data := by
    have := List.isPrefixOf_iff_prefix.mp h
    simpa using this
  obtain ⟨t, ht⟩ := hp
  have hdata : s.data = '*' :: '.' :: t := by simpa using ht.symm
  simp only [strDrop, hdata]
  rfl

theorem originAdmits_eq_spec (entry u : Origin) :
    originAdmits u entry = specOriginMatch entry u := by
  have hcomm : (entry.host = u.host) ↔ (u.host = entry.host) := eq_comm
  by_cases hstar : strStartsWith entry.host "*." = true
  · rw [Bool.eq_iff_iff]
    simp only [originAdmits, specOriginMatch, strDrop_one_of_star hstar, hstar,
      Bool.or_eq_true, Bool.and_eq_true, decide_eq_true_eq, true_and]
    tauto
  · have hstar' : strStartsWith entry.host "*." = false := by
      simpa using hstar
    rw [Bool.eq_iff_iff]
    simp only [originAdmits, specOriginMatch, hstar', Bool.or_eq_true, Bool.and_eq_true,
      decide_eq_true_eq, false_and, or_false, false_or]
    tauto

/-- C2: the code's per-entry matcher coincides with the spec's matching
rule (exact host, or `*.`-wildcard matching the bare suffix or a
`.<suffix>` ending, each with the path-prefix check); for a non-empty
allow-list matched by no entry, `GetImage` returns the
not-allowed-origin error having issued no outbound call; and an empty
allow-list admits every origin, proceeding straight to the fetch. -/
theorem http_origin_allowlist_enforced :
    (∀ entry u, originAdmits u entry = specOriginMatch entry u) ∧
    (∀ (origins : List Origin) (u : Origin) (maxSize : Nat) (head get : RemoteResponse),
      origins ≠ [] → (∀ o ∈ origins, specOriginMatch o u = false) →
      httpGetImage origins maxSize (some u) head get =
        (.error (.notAllowedOrigin u.host u.path), [])) ∧
    (∀ (u : Origin) (maxSize : Nat) (head get : RemoteResponse),
      httpGetImage [] maxSize (some u) head get = fetchImage maxSize head get) := by
  refine ⟨originAdmits_eq_spec, ?_, ?_⟩
  · intro origins u maxSize head get hne hnomatch
    have hany : origins.any (originAdmits u) = false := by
      rw [List.any_eq_false]
      intro o ho
      rw [originAdmits_eq_spec o u]
      simp [hnomatch o ho]
    have hrestrict : shouldRestrictOrigin origins u = true := by
      simp only [shouldRestrictOrigin, hany]
      rw [if_neg (by simpa [List.isEmpty_iff] using hne)]
      simp
    simp [httpGetImage, hrestrict]
  · intro u maxSize head get
    simp [httpGetImage, shouldRestrictOrigin]

/-- C2 witness: a host on no allow-list entry is rejected with no
outbound call, at a concrete input. -/
theorem http_origin_allowlist_enforced_witness :
    httpGetImage [⟨"trusted.com", ""⟩] 0 (some ⟨"blocked.example", "/x.jpg"⟩)
      ⟨200, -1, []⟩ ⟨200, -1, [1, 2]⟩ =
      (.error (.notAllowedOrigin "blocked.example" "/x.jpg"), []) :=
  http_origin_allowlist_enforced.2.1 [⟨"trusted.com", ""⟩] ⟨"blocked.example", "/x.jpg"⟩
    0 ⟨200, -1, []⟩ ⟨200, -1, [1, 2]⟩ (by decide) (by decide)

/-! ## C5: HEAD probe and the bounded GET reader -/

/-- C5, counterexample: with `MaxAllowedSize = 2` and an actual body of 3
bytes (the HEAD reply declaring no length), `fetchImage` *succeeds* with
the silently truncated 2-byte result instead of returning an error — the
claim's "error rather than a truncated result on overflow" is false:
`io.ReadAll(io.LimitReader(body, max))` cannot fail on an over-long body. -/
theorem fetchImage_truncates_cx :
    fetchImage 2 ⟨200, -1, []⟩ ⟨200, -1, [1, 2, 3]⟩ = (.ok [1, 2], [.head, .get]) ∧
    ([1, 2, 3] : List Nat).length > 2 := by
  constructor
  · rfl
  · decide

/-- C5 (amended): when `MaxAllowedSize > 0`, the HEAD probe is issued
first and a declared content length above the limit aborts with only the
HEAD call issued (no download); but the GET body is merely read through
`io.LimitReader`, so every successful fetch returns the body truncated to
at most the limit — an over-long actual body is silently cut, never an
error. -/
theorem fetchImage_head_probe_then_truncating_get :
    ∀ (maxSize : Nat) (head get : RemoteResponse), 0 < maxSize →
      (head.contentLength > (maxSize : Int) → 200 ≤ head.status → head.status ≤ 206 →
        fetchImage maxSize head get =
          (.error (.contentLengthExceeded head.contentLength maxSize), [.head])) ∧
      (∀ bs calls, fetchImage maxSize head get = (.ok bs, calls) →
        bs = get.body.take maxSize ∧ calls = [.head, .get]) := by
  intro maxSize head get hpos
  constructor
  · intro hcl h200 h206
    have hsize : checkImageSize maxSize head =
        some (.contentLengthExceeded head.contentLength maxSize) := by
      simp only [checkImageSize]
      rw [if_neg (by omega), if_pos hcl]
    simp [fetchImage, hpos, hsize]
  · intro bs calls hfetch
    simp only [fetchImage, if_pos hpos] at hfetch
    cases hsize : checkImageSize maxSize head with
    | some e => rw [hsize] at hfetch; cases hfetch
    | none =>
      rw [hsize] at hfetch
      by_cases hst : get.status = 200
      · have hcond : ¬ (get.status ≠ 200) := by simp [hst]
        simp only [fetchImageGet, if_neg hcond] at hfetch
        cases hfetch
        exact ⟨rfl, rfl⟩
      · simp only [fetchImageGet, if_pos hst] at hfetch
        cases hfetch

/-- C5 witness: a HEAD reply declaring 5 bytes against a 2-byte limit is
rejected with only the HEAD call issued. -/
theorem fetchImage_head_probe_then_truncating_get_witness :
    fetchImage 2 ⟨200, 5, []⟩ ⟨200, 5, [1, 2, 3, 4, 5]⟩ =
      (.error (.contentLengthExceeded 5 2), [.head]) :=
  (fetchImage_head_probe_then_truncating_get 2 ⟨200, 5, []⟩ ⟨200, 5, [1, 2, 3, 4, 5]⟩
    (by decide)).1 (by decide) (by decide) (by decide)

/-! ## C6: MaxAllowedSize = 0 always yields the empty-body error -/

/-- C6: with no maximum size configured (`MaxAllowedSize = 0`), the GET
body always passes through `io.LimitReader(body, 0)`, so every successful
`HTTPImageSource` fetch returns the empty slice, and the live handler
then answers every GET-by-URL request with `ErrEmptyBody` — even when the
remote image is valid and non-empty. -/
theorem zero_max_size_url_requests_fail :
    ∀ (origins : List Origin) (u : Origin) (head get : RemoteResponse)
      (errString : HttpErr → String) (paramsResult : Except String ImageOptions)
      (operation : List Nat → ImageOptions → Except String Image),
      shouldRestrictOrigin origins u = false → get.status = 200 →
      (httpGetImage origins 0 (some u) head get).1 = .ok [] ∧
      handleURLFetchRequest errString origins 0 (some u) head get paramsResult operation =
        ⟨.reply ErrEmptyBody, false⟩ := by
  intro origins u head get errString paramsResult operation hrestrict hstatus
  have hfetch : (httpGetImage origins 0 (some u) head get).1 = .ok [] := by
    simp [httpGetImage, hrestrict, fetchImage, fetchImageGet, hstatus]
  refine ⟨hfetch, ?_⟩
  simp [handleURLFetchRequest, createImageHandler, hfetch]

/-- C6 witness: a perfectly good 3-byte remote image at an unrestricted
origin still produces `ErrEmptyBody` when `MaxAllowedSize = 0`. -/
theorem zero_max_size_url_requests_fail_witness :
    handleURLFetchRequest (fun _ => "") [] 0 (some ⟨"example.com", "/cat.jpg"⟩)
      ⟨200, -1, []⟩ ⟨200, 3, [9, 9, 9]⟩ (.ok ⟨""⟩)
      (fun b _ => .ok ⟨b, "image/jpeg"⟩) = ⟨.reply ErrEmptyBody, false⟩ :=
  (zero_max_size_url_requests_fail [] ⟨"example.com", "/cat.jpg"⟩
    ⟨200, -1, []⟩ ⟨200, 3, [9, 9, 9]⟩ (fun _ => "") (.ok ⟨""⟩)
    (fun b _ => .ok ⟨b, "image/jpeg"⟩) (by decide) rfl).2

/-! ## C7: the resolution guard and the live handler -/

/-- C7, counterexample: the handler `ImageMiddleware` actually installs
(`createImageHandler`) consults no image metadata at all: on a non-empty
buffer whose bimg dimensions are 100000×100000 (far above a ceiling of
18 megapixels) it invokes the transform and serves the result instead of
rejecting with `ErrResolutionTooBig`. -/
theorem createImageHandler_no_resolution_guard_cx :
    createImageHandler (fun e : String => e) (.ok [1]) (.ok ⟨""⟩)
        (fun b _ => .ok ⟨b, "image/jpeg"⟩) = ⟨.serve ⟨[1], "image/jpeg"⟩, true⟩ ∧
    ((100000 : Rat) * 100000 / 1000000 > 18) := by
  constructor
  · rfl
  · norm_num

/-- C7 (amended): the megapixel ceiling check exists only in
`imageHandler` (`controllers.go`), where it does fire before the
transform; the live path through `createImageHandler` performs no
resolution check and invokes the transform on every non-empty buffer
with parseable parameters, whatever the source image's dimensions. -/
theorem resolution_guard_only_in_imageHandler :
    (∀ (opts : ImageOptions) (acceptType : String) (w h : Nat) (m : Rat)
      (buf : List Nat) (operation : List Nat → ImageOptions → Except String Image),
      (opts.type = "auto" ∨ opts.type = "" ∨ goImageType opts.type ≠ 0) →
      ((w : Rat) * (h : Rat) / 1000000 > m) →
      imageHandler true (.ok opts) acceptType (.ok (w, h)) m buf operation =
        ⟨.reply ErrResolutionTooBig, false⟩) ∧
    (∀ (buf : List Nat) (opts : ImageOptions)
      (operation : List Nat → ImageOptions → Except String Image), buf ≠ [] →
      (createImageHandler (fun e : String => e) (.ok buf) (.ok opts)
        operation).transformInvoked = true) := by
  constructor
  · intro opts acceptType w h m buf operation htype hexceed
    have hgate : ¬ (opts.type ≠ "auto" ∧ opts.type ≠ "" ∧ goImageType opts.type = 0) := by
      tauto
    simp only [imageHandler, not_true, if_neg hgate]
    rw [if_pos hexceed]
    simp
  · intro buf opts operation hne
    have hlen : ¬ (buf.length = 0) := by
      simpa [List.length_eq_zero] using hne
    simp only [createImageHandler, if_neg hlen]
    cases operation buf opts <;> rfl

/-- C7 witness: a 10000×10000 source against an 18-megapixel ceiling is
rejected by `imageHandler` without invoking the transform. -/
theorem resolution_guard_only_in_imageHandler_witness :
    imageHandler true (.ok ⟨""⟩) "" (.ok (10000, 10000)) 18 [1]
      (fun b _ => .ok ⟨b, "image/png"⟩) = ⟨.reply ErrResolutionTooBig, false⟩ :=
  resolution_guard_only_in_imageHandler.1 ⟨""⟩ "" 10000 10000 18 [1]
    (fun b _ => .ok ⟨b, "image/png"⟩) (Or.inr (Or.inl rfl)) (by norm_num)

/-! ## C9: PUT requests and method validation -/

/-- C9, counterexample: `BodyImageSource.Matches` accepts PUT, but the
chain rejects a PUT request with `ErrMethodNotAllowed` (from
`validateRequest`, which admits only GET and POST) before any source is
consulted — so PUT requests never reach the request-body source. -/
theorem put_rejected_cx :
    imageChain ⟨false, "", true, "", 0, []⟩ .put "/resize" .next "" false =
      .reply ErrMethodNotAllowed ∧
    bodySourceMatches .put = true := by
  decide

/-- C9 (amended): `BodyImageSource.Matches` accepts POST and PUT, but
`validateRequest` admits only GET and POST, so under every configuration
(signature checking disabled or passing) a PUT request to an image
endpoint is rejected with `ErrMethodNotAllowed` and the handler — hence
any source — is never reached; only POST body uploads can reach the
source. -/
theorem put_rejected_by_method_validation :
    ∀ (cfg : ChainConfig) (path : String) (sigResult : SigResult)
      (key : String) (rl : Bool),
      (cfg.enableURLSignature = false ∨ sigResult = .next) →
      imageChain cfg .put path sigResult key rl = .reply ErrMethodNotAllowed ∧
      bodySourceMatches .put = true ∧ bodySourceMatches .post = true ∧
      validateRequestAdmits .put = false := by
  intro cfg path sigResult key rl hsig
  refine ⟨?_, rfl, rfl, rfl⟩
  rcases hsig with h | h
  · simp [imageChain, h, validateRequestAdmits]
  · subst h
    simp [imageChain, validateRequestAdmits]

/-- C9 witness: with signature enforcement on and a passing signature, a
PUT request is still rejected by method validation. -/
theorem put_rejected_by_method_validation_witness :
    imageChain ⟨true, "/mnt", false, "secret", 2, ["form"]⟩ .put "/crop" .next "secret" false =
      .reply ErrMethodNotAllowed :=
  (put_rejected_by_method_validation ⟨true, "/mnt", false, "secret", 2, ["form"]⟩
    "/crop" .next "secret" false (Or.inr rfl)).1

/-! ## C4 and C8: pipeline execution order and failure policy -/

theorem pipelineLoop_cons (build : PipelineOperation → Except String Unit)
    (run : PipelineOperation → List Nat → Except String Image)
    (op : PipelineOperation) (rest : List PipelineOperation)
    (i : Nat) (img : Image) (tr : List Nat) :
    pipelineLoop build run (op :: rest) i img tr =
      if ¬ isKnownOperation op.name then
        (.error ("Unsupported operation: " ++ op.name), tr)
      else match build op with
        | .error e =>
          (.error ("pipeline operation " ++ toString (i + 1) ++ " failed: " ++ e), tr)
        | .ok _ =>
          match run op img.body with
          | .error e =>
            if ¬ op.ignoreFailure then (.error e, tr ++ [i + 1])
            else pipelineLoop build run rest (i + 1) img (tr ++ [i + 1])
          | .ok result => pipelineLoop build run rest (i + 1) result (tr ++ [i + 1]) := rfl

theorem pipelineLoop_unknown_no_ok (build : PipelineOperation → Except String Unit)
    (run : PipelineOperation → List Nat → Except String Image) :
    ∀ (ops : List PipelineOperation) (i : Nat) (img : Image) (tr : List Nat)
      (k : Nat) (hk : k < ops.length),
      isKnownOperation ((ops.get ⟨k, hk⟩).name) = false →
      (∀ out, (pipelineLoop build run ops i img tr).1 ≠ .ok out) ∧
      (∀ p ∈ (pipelineLoop build run ops i img tr).2, p ∈ tr ∨ p ≤ i + k) := by
  intro ops
  induction ops with
  | nil => intro i img tr k hk; exact absurd hk (Nat.not_lt_zero k)
  | cons op rest ih =>
    intro i img tr k hk hunk
    rw [pipelineLoop_cons]
    by_cases hop : isKnownOperation op.name = true
    · rw [if_neg (by simp [hop])]
      have hk0 : k ≠ 0 := by
        intro h
        subst h
        exact absurd hunk (by simp [hop, List.get])
      obtain ⟨k', rfl⟩ : ∃ k', k = k' + 1 := ⟨k - 1, by omega⟩
      have hk' : k' < rest.length := by simpa using hk
      have hunk' : isKnownOperation ((rest.get ⟨k', hk'⟩).name) = false := by
        simpa [List.get] using hunk
      cases hbuild : build op with
      | error e =>
        simp only [hbuild]
        exact ⟨(fun out h => by cases h), fun p hp => Or.inl hp⟩
      | ok u =>
        simp only [hbuild]
        cases hrun : run op img.body with
        | error e =>
          simp only [hrun]
          by_cases hig : op.ignoreFailure = true
          · rw [if_neg (by simp [hig])]
            have h := ih (i + 1) img (tr ++ [i + 1]) k' hk' hunk'
            refine ⟨h.1, fun p hp => ?_⟩
            rcases h.2 p hp with hmem | hle
            · rcases List.mem_append.mp hmem with h' | h'
              · exact Or.inl h'
              · simp at h'
                omega
            · omega
          · rw [if_pos (by simp [hig])]
            refine ⟨(fun out h => by cases h), fun p hp => ?_⟩
            rcases List.mem_append.mp hp with h' | h'
            · exact Or.inl h'
            · simp at h'
              omega
        | ok result =>
          simp only [hrun]
          have h := ih (i + 1) result (tr ++ [i + 1]) k' hk' hunk'
          refine ⟨h.1, fun p hp => ?_⟩
          rcases h.2 p hp with hmem | hle
          · rcases List.mem_append.mp hmem with h' | h'
            · exact Or.inl h'
            · simp at h'
              omega
          · omega
    · rw [if_pos (by simpa using hop)]
      exact ⟨(fun out h => by cases h), fun p hp => Or.inl hp⟩

/-- C4, counterexample: a two-step pipeline whose second step names the
unknown operation `nosuchop` executes step 1's transform (execution trace
`[1]`) before aborting — the unknown name at position `k = 2` does *not*
abort before executing position 1, because `Pipeline` looks names up
inside the execution loop. -/
theorem pipeline_unknown_op_midstream_cx :
    Pipeline (fun _ => .ok ()) (fun _ b => .ok ⟨b, "image/jpeg"⟩)
      [⟨"resize", false⟩, ⟨"nosuchop", false⟩] [7] =
      (.error "Unsupported operation: nosuchop", [1]) := by
  rfl

/-- C4 (amended): a pipeline of 1–10 steps with an unknown operation name
at (0-based) position `k` always returns an error and never invokes the
transform of the unknown step or of any later step (every traced 1-based
position is at most `k`); the transforms of steps *before* the unknown
name do execute as usual before the abort. -/
theorem pipeline_unknown_op_aborts :
    ∀ (build : PipelineOperation → Except String Unit)
      (run : PipelineOperation → List Nat → Except String Image)
      (ops : List PipelineOperation) (buf : List Nat) (k : Nat) (hk : k < ops.length),
      isKnownOperation ((ops.get ⟨k, hk⟩).name) = false → ops.length ≤ 10 →
      (∀ out, (Pipeline build run ops buf).1 ≠ .ok out) ∧
      (∀ p ∈ (Pipeline build run ops buf).2, p ≤ k) := by
  intro build run ops buf k hk hunk hlen
  have hne : ¬ (ops.length = 0) := by omega
  have hle : ¬ (ops.length > 10) := by omega
  unfold Pipeline
  rw [if_neg hne, if_neg hle]
  have h := pipelineLoop_unknown_no_ok build run ops 0 ⟨buf, ""⟩ [] k hk hunk
  refine ⟨h.1, fun p hp => ?_⟩
  rcases h.2 p hp with hmem | hle'
  · cases hmem
  · omega

/-- C4 witness: an unknown name at position 2 of a three-step pipeline
yields an error — the pipeline's result is not a success. -/
theorem pipeline_unknown_op_aborts_witness :
    (Pipeline (fun _ => .ok ()) (fun _ b => .ok ⟨b, "x"⟩)
      [⟨"crop", true⟩, ⟨"nosuchop", false⟩, ⟨"blur", false⟩] [1]).1 ≠ .ok ⟨[1], "x"⟩ :=
  (pipeline_unknown_op_aborts (fun _ => .ok ()) (fun _ b => .ok ⟨b, "x"⟩)
    [⟨"crop", true⟩, ⟨"nosuchop", false⟩, ⟨"blur", false⟩] [1] 1 (by decide)
    (by decide) (by decide)).1 ⟨[1], "x"⟩

/-- C8, counterexample: a known step that fails with `ignoreFailure`
unset returns the step's error *verbatim* (`boom`), not annotated with
its 1-based position (`pipeline operation 1 failed: boom` — that
annotation exists only on the parameter-building path). -/
theorem pipeline_step_error_unannotated_cx :
    Pipeline (fun _ => .ok ()) (fun _ _ => .error "boom") [⟨"resize", false⟩] [5] =
      (.error "boom", [1]) ∧
    ("boom" : String) ≠ "pipeline operation 1 failed: boom" := by
  exact ⟨rfl, by decide⟩

/-- C8 (amended): when step `i+1` (1-based) fails, an unset
`ignoreFailure` aborts the pipeline immediately with *exactly* that
step's raw error (no later step runs — the trace ends at `i+1`); a set
flag discards the failed output, keeps the previous image unchanged and
continues with the next step. -/
theorem pipeline_step_failure_policy :
    ∀ (build : PipelineOperation → Except String Unit)
      (run : PipelineOperation → List Nat → Except String Image)
      (op : PipelineOperation) (rest : List PipelineOperation)
      (i : Nat) (img : Image) (tr : List Nat) (e : String),
      isKnownOperation op.name = true → build op = .ok () →
      run op img.body = .error e →
      (op.ignoreFailure = true →
        pipelineLoop build run (op :: rest) i img tr =
          pipelineLoop build run rest (i + 1) img (tr ++ [i + 1])) ∧
      (op.ignoreFailure = false →
        pipelineLoop build run (op :: rest) i img tr = (.error e, tr ++ [i + 1])) := by
  intro build run op rest i img tr e hknown hbuild hrun
  rw [pipelineLoop_cons, if_neg (by simp [hknown])]
  simp only [hbuild, hrun]
  constructor
  · intro hig
    rw [if_neg (by simp [hig])]
  · intro hig
    rw [if_pos (by simp [hig])]

/-- C8 witness: an ignorable failing step keeps the prior image and the
pipeline finishes successfully with it. -/
theorem pipeline_step_failure_policy_witness :
    pipelineLoop (fun _ => .ok ()) (fun _ _ => .error "x")
      [⟨"blur", true⟩] 0 ⟨[1], ""⟩ [] = (.ok ⟨[1], ""⟩, [1]) := by
  have h := (pipeline_step_failure_policy (fun _ => .ok ()) (fun _ _ => .error "x")
    ⟨"blur", true⟩ [] 0 ⟨[1], ""⟩ [] "x" (by decide) rfl rfl).1 rfl
  rw [h]
  rfl

/-! ## C3: URL signature validation -/

set_option maxRecDepth 10000

theorem b64Char_spec : ∀ n, n < 64 →
    b64CharIndex (b64Char n) = some n ∧ b64Char n ≠ '\r' ∧ b64Char n ≠ '\n' := by
  decide

theorem b64EncodeChars_eq_map : ∀ bs, b64EncodeChars bs = (b64EncodeIdx bs).map b64Char := by
  intro bs
  induction bs using b64EncodeIdx.induct with
  | case1 => rfl
  | case2 b0 => rfl
  | case3 b0 b1 => rfl
  | case4 b0 b1 b2 rest ih => simp [b64EncodeChars, b64EncodeIdx, ih]

theorem b64EncodeIdx_lt : ∀ bs, (∀ b ∈ bs, b < 256) → ∀ v ∈ b64EncodeIdx bs, v < 64 := by
  intro bs
  induction bs using b64EncodeIdx.induct with
  | case1 => intro _ v hv; cases hv
  | case2 b0 =>
    intro h v hv
    have h0 := h b0 (by simp)
    simp [b64EncodeIdx] at hv
    rcases hv with h' | h' <;> omega
  | case3 b0 b1 =>
    intro h v hv
    have h0 := h b0 (by simp)
    have h1 := h b1 (by simp)
    simp [b64EncodeIdx] at hv
    rcases hv with h' | h' | h' <;> omega
  | case4 b0 b1 b2 rest ih =>
    intro h v hv
    have h0 := h b0 (by simp)
    have h1 := h b1 (by simp)
    have h2 := h b2 (by simp)
    simp only [b64EncodeIdx, List.mem_cons] at hv
    rcases hv with h' | h' | h' | h' | h'
    · omega
    · omega
    · omega
    · omega
    · exact ih (fun b hb => h b (by simp [hb])) v h'

theorem b64EncodeIdx_length_mod : ∀ bs, (b64EncodeIdx bs).length % 4 ≠ 1 := by
  intro bs
  induction bs using b64EncodeIdx.induct with
  | case1 => decide
  | case2 b0 => simp [b64EncodeIdx]
  | case3 b0 b1 => simp [b64EncodeIdx]
  | case4 b0 b1 b2 rest ih =>
    simp only [b64EncodeIdx, List.length_cons]
    omega

theorem b64DecodeQuantum_encodeIdx : ∀ bs, (∀ b ∈ bs, b < 256) →
    b64DecodeQuantum (b64EncodeIdx bs) = bs := by
  intro bs
  induction bs using b64EncodeIdx.induct with
  | case1 => intro _; rfl
  | case2 b0 =>
    intro h
    have h0 := h b0 (by simp)
    simp [b64EncodeIdx, b64DecodeQuantum]
    omega
  | case3 b0 b1 =>
    intro h
    have h0 := h b0 (by simp)
    have h1 := h b1 (by simp)
    simp [b64EncodeIdx, b64DecodeQuantum]
    omega
  | case4 b0 b1 b2 rest ih =>
    intro h
    have h0 := h b0 (by simp)
    have h1 := h b1 (by simp)
    have h2 := h b2 (by simp)
    have hrest := ih (fun b hb => h b (by simp [hb]))
    simp [b64EncodeIdx, b64DecodeQuantum, hrest]
    omega

theorem mapM_loop_b64CharIndex : ∀ (is : List Nat) (acc : List Nat),
    (∀ v ∈ is, v < 64) →
    List.mapM.loop b64CharIndex (is.map b64Char) acc = some (acc.reverse ++ is) := by
  intro is
  induction is with
  | nil => intro acc _; simp [List.mapM.loop]
  | cons v vs ih =>
    intro acc h
    have hv := (b64Char_spec v (h v (by simp))).1
    have hvs := ih (v :: acc) (fun x hx => h x (by simp [hx]))
    simp only [List.map_cons, List.mapM.loop, hv]
    exact hvs.trans (by simp)

theorem mapM_map_b64CharIndex : ∀ is : List Nat, (∀ v ∈ is, v < 64) →
    (is.map b64Char).mapM b64CharIndex = some is := by
  intro is h
  have := mapM_loop_b64CharIndex is [] h
  simpa [List.mapM] using this

theorem b64_decode_encode (bs : List Nat) (h : ∀ b ∈ bs, b < 256) :
    b64RawURLDecode (b64RawURLEncode bs) = some bs := by
  have hlt := b64EncodeIdx_lt bs h
  have hfilter : (b64EncodeChars bs).filter (fun c => c ≠ '\r' ∧ c ≠ '\n') =
      (b64EncodeIdx bs).map b64Char := by
    rw [b64EncodeChars_eq_map]
    rw [List.filter_eq_self]
    intro c hc
    obtain ⟨v, hv, rfl⟩ := List.mem_map.mp hc
    have := b64Char_spec v (hlt v hv)
    simp [this.2.1, this.2.2]
  show (match ((b64EncodeChars bs).filter (fun c => c ≠ '\r' ∧ c ≠ '\n')).mapM b64CharIndex with
    | none => none
    | some is => if is.length % 4 = 1 then none else some (b64DecodeQuantum is)) = some bs
  rw [hfilter, mapM_map_b64CharIndex (b64EncodeIdx bs) hlt]
  show (if (b64EncodeIdx bs).length % 4 = 1 then none
    else some (b64DecodeQuantum (b64EncodeIdx bs))) = some bs
  rw [if_neg (b64EncodeIdx_length_mod bs)]
  rw [b64DecodeQuantum_encodeIdx bs h]

theorem beBytes_lt : ∀ (k n : Nat), ∀ b ∈ beBytes k n, b < 256 := by
  intro k
  induction k with
  | zero => intro n b hb; cases hb
  | succ k ih =>
    intro n b hb
    simp only [beBytes] at hb
    rcases List.mem_append.mp hb with h | h
    · exact ih (n / 256) b h
    · simp at h
      omega

theorem sha256_bytes_lt : ∀ (msg : List Nat), ∀ b ∈ sha256 msg, b < 256 := by
  intro msg b hb
  simp only [sha256, List.mem_append] at hb
  rcases hb with ((((((h | h) | h) | h) | h) | h) | h) | h <;> exact beBytes_lt 4 _ b h

theorem hmacSha256_bytes_lt : ∀ (key msg : List Nat), ∀ b ∈ hmacSha256 key msg, b < 256 := by
  intro key msg b hb
  simp only [hmacSha256] at hb
  exact sha256_bytes_lt _ b hb

/-- C3, counterexample: Go's default (non-strict) base64 decoder discards
non-zero trailing padding bits, so the signature value is malleable: with
key `k`, path `/resize` and query `width=200`, the canonical signature is
`...Ebnr0`, yet the distinct string `...Ebnr1` (last character's low bits
flipped) decodes to the same 32 digest bytes and is *admitted* — the
claim's "admits if and only if `sign` is the base64 encoding of the
HMAC" is false, and flipping that byte of the signature fails to fail. -/
theorem checkURLSignature_malleable_cx :
    checkURLSignature "k" "/resize"
        [("width", ["200"]), ("sign", ["fSooRW80UfpRbzF5PoohkfIOo2Y0h_GYetUWWrEbnr1"])] =
      .next ∧
    "fSooRW80UfpRbzF5PoohkfIOo2Y0h_GYetUWWrEbnr1" ≠
      b64RawURLEncode (hmacSha256 (strBytes "k")
        (strBytes ("/resize" ++ valuesEncode
          (valuesDel [("width", ["200"]),
            ("sign", ["fSooRW80UfpRbzF5PoohkfIOo2Y0h_GYetUWWrEbnr1"])] "sign")))) := by
  constructor
  · decide
  · decide

/-- C3 (amended): `checkURLSignature` admits a request if and only if the
`sign` parameter *decodes* (under Go's lenient unpadded URL-safe base64)
to the HMAC-SHA-256 under the key of the path concatenated with the
sorted re-encoding of the query with `sign` removed; a `sign` that fails
decoding is rejected with the format error, a well-formed one whose
decoded bytes differ from the digest with the distinct integrity error,
and the genuine base64 encoding of the digest always validates.  (Only
the claim's "if and only if the parameter *is* the encoding" direction
fails, by the malleability counterexample.) -/
theorem checkURLSignature_characterization :
    ∀ (key path : String) (query : List (String × List String)),
      (b64RawURLDecode (valuesGet query "sign") = none →
        checkURLSignature key path query = .invalidSignature) ∧
      (∀ bs, b64RawURLDecode (valuesGet query "sign") = some bs →
        bs ≠ hmacSha256 (strBytes key)
          (strBytes (path ++ valuesEncode (valuesDel query "sign"))) →
        checkURLSignature key path query = .mismatch) ∧
      (checkURLSignature key path query = .next ↔
        b64RawURLDecode (valuesGet query "sign") =
          some (hmacSha256 (strBytes key)
            (strBytes (path ++ valuesEncode (valuesDel query "sign"))))) ∧
      (valuesGet query "sign" =
          b64RawURLEncode (hmacSha256 (strBytes key)
            (strBytes (path ++ valuesEncode (valuesDel query "sign")))) →
        checkURLSignature key path query = .next) := by
  intro key path query
  set expected := hmacSha256 (strBytes key)
    (strBytes (path ++ valuesEncode (valuesDel query "sign"))) with hexp
  refine ⟨?_, ?_, ?_, ?_⟩
  · intro hdec
    simp [checkURLSignature, hdec, ← hexp]
  · intro bs hdec hne
    simp [checkURLSignature, hdec, ← hexp, hne]
  · constructor
    · intro hnext
      cases hdec : b64RawURLDecode (valuesGet query "sign") with
      | none => simp [checkURLSignature, hdec, ← hexp] at hnext
      | some bs =>
        by_cases hbs : bs = expected
        · rw [hbs]
        · simp [checkURLSignature, hdec, ← hexp, hbs] at hnext
    · intro hdec
      simp [checkURLSignature, hdec, ← hexp]
  · intro hsign
    have hroundtrip := b64_decode_encode expected
      (hmacSha256_bytes_lt (strBytes key)
        (strBytes (path ++ valuesEncode (valuesDel query "sign"))))
    rw [hexp] at hsign
    simp [checkURLSignature, hsign, hroundtrip, ← hexp]

/-- C3 witness: the genuine signature for a concrete key, path and query
validates; a non-base64 `sign` fails with the format error; and a
well-formed `sign` with different bytes fails with the integrity error. -/
theorem checkURLSignature_characterization_witness :
    checkURLSignature "k" "/resize"
        [("width", ["200"]), ("sign", ["fSooRW80UfpRbzF5PoohkfIOo2Y0h_GYetUWWrEbnr0"])] =
      .next ∧
    checkURLSignature "k" "/resize" [("width", ["200"]), ("sign", ["!!"])] =
      .invalidSignature ∧
    checkURLSignature "k" "/resize" [("width", ["200"]), ("sign", ["AAAA"])] =
      .mismatch :=
  ⟨(checkURLSignature_characterization "k" "/resize"
      [("width", ["200"]), ("sign", ["fSooRW80UfpRbzF5PoohkfIOo2Y0h_GYetUWWrEbnr0"])]).2.2.2
      (by decide),
   (checkURLSignature_characterization "k" "/resize"
      [("width", ["200"]), ("sign", ["!!"])]).1 (by decide),
   (checkURLSignature_characterization "k" "/resize"
      [("width", ["200"]), ("sign", ["AAAA"])]).2.1 [0, 0, 0] (by decide) (by decide)⟩

/-! ## C10: the error replier and the placeholder policy -/

/-- C10: when a placeholder image or placeholder mode is configured and
the width/height query parameters parse and the placeholder resize
succeeds, `ErrorReply` serves the resized fallback image with the
`Error` header carrying the JSON encoding of the original error and a
status equal to the configured placeholder status when non-zero,
otherwise the error's own HTTP status; with no placeholder configured it
serves the JSON error body with the error's status. -/
theorem errorReply_placeholder_policy :
    ∀ (o : PlaceholderOptions) (w h : Nat)
      (resize : Nat → Nat → Except String (List Nat)) (img : List Nat)
      (dt : Nat) (err : Error),
      ((o.enablePlaceholder = true ∨ o.placeholder ≠ "") → resize w h = .ok img →
        ErrorReply o (.ok w) (.ok h) resize dt err =
          { status := if o.placeholderStatus ≠ 0 then o.placeholderStatus else err.HTTPCode
            contentType := GetImageMimeType dt
            errorHeader := some err.JSON
            body := .image img }) ∧
      (o.enablePlaceholder = false → o.placeholder = "" →
        ∀ (parseWidth parseHeight : Except String Nat),
        ErrorReply o parseWidth parseHeight resize dt err =
          ⟨err.HTTPCode, "application/json", none, .json err.JSON⟩) := by
  intro o w h resize img dt err
  constructor
  · intro hconf hres
    have hcond : (o.enablePlaceholder || o.placeholder ≠ "") = true := by
      rcases hconf with h' | h' <;> simp [h']
    unfold ErrorReply
    rw [if_pos hcond]
    simp [replyWithPlaceholder, hres]
  · intro h1 h2 parseWidth parseHeight
    simp [ErrorReply, h1, h2]

/-- C10 witness: placeholder mode with fixed status 404 — the fallback
image is served with status 404 and the original error JSON in the
`Error` header; and with no placeholder, the same error is served as its
JSON body with its own status 422. -/
theorem errorReply_placeholder_policy_witness :
    ErrorReply ⟨true, "", 404⟩ (.ok 5) (.ok 6) (fun a b => .ok [a, b]) bimgJPEG
      ErrResolutionTooBig =
      ⟨404, "image/jpeg", some ErrResolutionTooBig.JSON, .image [5, 6]⟩ ∧
    ErrorReply ⟨false, "", 404⟩ (.ok 5) (.ok 6) (fun a b => .ok [a, b]) bimgJPEG
      ErrResolutionTooBig =
      ⟨422, "application/json", none, .json ErrResolutionTooBig.JSON⟩ := by
  constructor
  · have := (errorReply_placeholder_policy ⟨true, "", 404⟩ 5 6 (fun a b => .ok [a, b])
      [5, 6] bimgJPEG ErrResolutionTooBig).1 (Or.inl rfl) rfl
    rw [this]
    decide
  · have := (errorReply_placeholder_policy ⟨false, "", 404⟩ 5 6 (fun a b => .ok [a, b])
      [5, 6] bimgJPEG ErrResolutionTooBig).2 rfl rfl (.ok 5) (.ok 6)
    rw [this]
    decide

end Imaginary
